import Mathlib

/-!
Verification development for the claudia-statusline usage-telemetry and
context-estimation engine.  The Rust sources under `src/` are shallowly
embedded below: pure functions become Lean functions, the stateful stats
store becomes explicit state passing, `f64` quotients are modelled exactly
in `ℚ` (every quantity compared here is exactly representable), and
fallible operations return `Option`.
-/

namespace Statusline

/-! ### `format_token_count` (src/utils.rs lines 111-118)

Rust:
```
if tokens == 0 { "0" } else {
  let k = (tokens as f64 / 1000.0).round() as usize;
  format!("{}k", k.max(1)) }
```
`f64::round` rounds half away from zero, so for a nonnegative integer
`tokens` (exact in `f64` for all realistic counts) the rounded quotient is
`(tokens + 500) / 1000` in natural division. -/

def format_token_count (tokens : Nat) : String :=
  if tokens = 0 then "0"
  else
    let k := (tokens + 500) / 1000
    toString (max k 1) ++ "k"

/-! ### `sanitize_for_terminal` (src/utils.rs lines 27-48)

The Rust code first deletes every match of the regex `\x1b\[[0-9;]*m`
(leftmost, non-overlapping; the match at a given start position is unique
because `m` is not in the class `[0-9;]`), then filters out control
characters other than tab / line feed / carriage return. -/

/-- Characters allowed by the filter pass: tab, LF, CR, and anything at or
above 0x20 that is neither DEL (0x7F) nor a C1 control (0x80-0x9F). -/
def allowedChar (c : Char) : Bool :=
  (c = '\t' || c = '\n' || c = '\r')
    || (decide (0x20 ≤ c.toNat) && decide (c.toNat ≠ 0x7F)
        && !(decide (0x80 ≤ c.toNat) && decide (c.toNat ≤ 0x9F)))

/-- A character matched by the regex class `[0-9;]`. -/
def isAnsiBody (c : Char) : Bool :=
  (decide ('0' ≤ c) && decide (c ≤ '9')) || c = ';'

/-- After having seen `ESC [`, consume `[0-9;]*` then require `m`;
returns the rest of the input after the match, or `none` if the regex
does not match here. -/
def ansiTail : List Char → Option (List Char)
  | [] => none
  | c :: rest =>
    if isAnsiBody c then ansiTail rest
    else if c = 'm' then some rest
    else none

theorem ansiTail_length {l l' : List Char} (h : ansiTail l = some l') :
    l'.length < l.length := by
  induction l with
  | nil => simp [ansiTail] at h
  | cons c rest ih =>
    rw [ansiTail] at h
    by_cases hb : isAnsiBody c
    · rw [if_pos hb] at h
      exact Nat.lt_trans (ih h) (by simp)
    · rw [if_neg hb] at h
      by_cases hm : c = 'm'
      · rw [if_pos hm] at h
        cases h
        simp
      · rw [if_neg hm] at h
        cases h

/-- After an ESC character, the regex requires `[`, then `[0-9;]*m`;
returns the input remaining after the full match, if any. -/
def ansiStripStep? : List Char → Option (List Char)
  | [] => none
  | c :: rest2 => if c = '[' then ansiTail rest2 else none

theorem ansiStripStep_length {rest rest' : List Char}
    (h : ansiStripStep? rest = some rest') : rest'.length < rest.length := by
  cases rest with
  | nil => simp [ansiStripStep?] at h
  | cons c rest2 =>
    rw [ansiStripStep?] at h
    by_cases hc : c = '['
    · rw [if_pos hc] at h
      exact Nat.lt_trans (ansiTail_length h) (by simp)
    · rw [if_neg hc] at h
      cases h

/-- Delete every leftmost non-overlapping match of `\x1b\[[0-9;]*m`. -/
def ansiStrip : List Char → List Char
  | [] => []
  | c :: rest =>
    if c = '\x1b' then
      if h : (ansiStripStep? rest).isSome then
        ansiStrip ((ansiStripStep? rest).get h)
      else c :: ansiStrip rest
    else c :: ansiStrip rest
termination_by l => l.length
decreasing_by
  · have := ansiStripStep_length (Option.some_get h).symm
    simp
    omega
  · simp
  · simp

/-- `sanitize_for_terminal`: strip ANSI color sequences, then filter
control characters. -/
def sanitize_for_terminal (input : List Char) : List Char :=
  (ansiStrip input).filter allowedChar

theorem ansiStrip_of_not_mem : ∀ {l : List Char}, '\x1b' ∉ l → ansiStrip l = l
  | [], _ => by rw [ansiStrip]
  | c :: rest, h => by
    have hc : c ≠ '\x1b' := fun he => h (he ▸ List.mem_cons_self c rest)
    have hrest : '\x1b' ∉ rest := fun hm => h (List.mem_cons_of_mem c hm)
    rw [ansiStrip, if_neg hc, ansiStrip_of_not_mem hrest]

theorem allowedChar_props {c : Char} (h : allowedChar c = true) :
    c ≠ '\x1b' ∧ (c.toNat < 0x20 → c = '\t' ∨ c = '\n' ∨ c = '\r') ∧
    c.toNat ≠ 0x7F ∧ ¬(0x80 ≤ c.toNat ∧ c.toNat ≤ 0x9F) := by
  simp only [allowedChar, Bool.or_eq_true, Bool.and_eq_true, Bool.not_eq_true',
    Bool.and_eq_false_iff, decide_eq_true_eq, decide_eq_false_iff_not] at h
  rcases h with ((rfl | rfl) | rfl) | ⟨⟨h1, h2⟩, h3⟩
  · exact ⟨by decide, fun _ => Or.inl rfl, by decide, by decide⟩
  · exact ⟨by decide, fun _ => Or.inr (Or.inl rfl), by decide, by decide⟩
  · exact ⟨by decide, fun _ => Or.inr (Or.inr rfl), by decide, by decide⟩
  · refine ⟨fun hc => by subst hc; exact absurd h1 (by decide), fun hlt => absurd h1 (by omega),
      h2, fun hc => ?_⟩
    rcases h3 with h3 | h3
    · omega
    · omega

theorem mem_sanitize_allowed {c : Char} {s : List Char}
    (h : c ∈ sanitize_for_terminal s) : allowedChar c = true :=
  (List.mem_filter.mp h).2

/-- C10: `sanitize_for_terminal` is idempotent, and its output contains no
ESC character, no C0 control other than tab/LF/CR, no DEL, and no C1
control character. -/
theorem sanitize_for_terminal_spec (s : List Char) :
    sanitize_for_terminal (sanitize_for_terminal s) = sanitize_for_terminal s ∧
    ∀ c ∈ sanitize_for_terminal s,
      c ≠ '\x1b' ∧ (c.toNat < 0x20 → c = '\t' ∨ c = '\n' ∨ c = '\r') ∧
      c.toNat ≠ 0x7F ∧ ¬(0x80 ≤ c.toNat ∧ c.toNat ≤ 0x9F) := by
  constructor
  · have hne : '\x1b' ∉ sanitize_for_terminal s := fun hm =>
      absurd (mem_sanitize_allowed hm) (by decide)
    rw [sanitize_for_terminal, ansiStrip_of_not_mem hne]
    exact List.filter_eq_self.mpr fun c hc => mem_sanitize_allowed hc
  · exact fun c hc => allowedChar_props (mem_sanitize_allowed hc)

/-- Witness for C10 at the concrete input `"\x1b[31mA"`. -/
theorem sanitize_for_terminal_spec_witness :
    sanitize_for_terminal (sanitize_for_terminal ['\x1b', '[', '3', '1', 'm', 'A']) =
      sanitize_for_terminal ['\x1b', '[', '3', '1', 'm', 'A'] ∧
    ('A' ≠ '\x1b' ∧ ('A'.toNat < 0x20 → 'A' = '\t' ∨ 'A' = '\n' ∨ 'A' = '\r') ∧
      'A'.toNat ≠ 0x7F ∧ ¬(0x80 ≤ 'A'.toNat ∧ 'A'.toNat ≤ 0x9F)) :=
  ⟨(sanitize_for_terminal_spec ['\x1b', '[', '3', '1', 'm', 'A']).1,
   (sanitize_for_terminal_spec ['\x1b', '[', '3', '1', 'm', 'A']).2 'A'
     (by simp [sanitize_for_terminal, ansiStrip, ansiStripStep?, ansiTail, isAnsiBody,
       allowedChar])⟩

/-- C8: `format_token_count` returns `"0"` for zero, and otherwise `"Nk"`
where `N` is the count divided by 1000 rounded to the nearest integer
(ties rounding up) and never below 1; including the spec's examples. -/
theorem format_token_count_spec :
    format_token_count 0 = "0" ∧
    (∀ n : Nat, 0 < n →
      ∃ N : Nat, format_token_count n = toString N ++ "k" ∧ 1 ≤ N ∧
        ((N * 1000 ≤ n + 500 ∧ n ≤ N * 1000 + 499) ∨ (N = 1 ∧ n < 500))) ∧
    format_token_count 500 = "1k" ∧ format_token_count 999 = "1k" ∧
    format_token_count 1500 = "2k" ∧ format_token_count 179000 = "179k" := by
  refine ⟨rfl, ?_, rfl, rfl, rfl, rfl⟩
  intro n hn
  refine ⟨max ((n + 500) / 1000) 1, ?_, le_max_right _ _, ?_⟩
  · rw [format_token_count, if_neg (Nat.pos_iff_ne_zero.mp hn)]
  · have hd := Nat.div_add_mod (n + 500) 1000
    have hm : (n + 500) % 1000 < 1000 := Nat.mod_lt _ (by norm_num)
    by_cases h5 : n < 500
    · have hq : (n + 500) / 1000 = 0 := Nat.div_eq_of_lt (by omega)
      exact Or.inr ⟨by simp [hq], h5⟩
    · left
      have hq1 : 1 ≤ (n + 500) / 1000 := by omega
      rw [max_eq_left hq1]
      omega

/-- Witness for C8 at `n = 179000`. -/
theorem format_token_count_spec_witness :
    0 < 179000 ∧
    ∃ N : Nat, format_token_count 179000 = toString N ++ "k" ∧ 1 ≤ N ∧
      ((N * 1000 ≤ 179000 + 500 ∧ 179000 ≤ N * 1000 + 499) ∨ (N = 1 ∧ 179000 < 500)) :=
  ⟨by decide, format_token_count_spec.2.1 179000 (by decide)⟩

/-! ### Compaction detection (src/utils.rs lines 382-483)

`detect_compaction_state` is embedded as a pure classifier over the data the
Rust function gathers from its collaborators: the hook-state file contents
read by `state::read_state` (already `None` when stale, absent, or when no
session id was supplied), the session's previous high-water token count from
the database (`None` when no session id, no record, or the database fails to
open), and the transcript file's modification recency.  The `f64` quotient
`(last - current) / last` is modelled exactly in `ℚ` (both operands are
integers well below 2^53, so the comparison with 0.5 is exact). -/

inductive CompactionState where
  | Normal
  | InProgress
  | RecentlyCompleted
deriving DecidableEq

/-- The hook-state record read by `state::read_state` (its `trigger` field is
only logged). -/
structure HookState where
  state : String
  trigger : String

/-- `elapsed.as_secs() < 10`: the transcript counts as recently modified. -/
def recentlyModified (elapsed_secs : Nat) : Bool :=
  decide (elapsed_secs < 10)

/-- Phases 2-3 of `detect_compaction_state`: classification from the stored
high-water mark, the current total, and modification recency (u64/usize
subtraction is saturating in the source, hence truncated `Nat` subtraction). -/
def detectFromHistory (last_known_tokens : Option Nat) (current_tokens : Nat)
    (recently_modified : Bool) : CompactionState :=
  match last_known_tokens with
  | some last_tokens =>
    let token_drop_ratio : ℚ :=
      if 0 < last_tokens then ((last_tokens - current_tokens : Nat) : ℚ) / (last_tokens : ℚ)
      else 0
    if (1 : ℚ)/2 < token_drop_ratio then
      if recently_modified then CompactionState.InProgress
      else CompactionState.RecentlyCompleted
    else if recently_modified = true ∧ current_tokens * 2 < last_tokens then
      CompactionState.InProgress
    else CompactionState.Normal
  | none => CompactionState.Normal

/-- `detect_compaction_state`: a fresh hook state saying "compacting"
short-circuits to `InProgress`; otherwise classify from history. -/
def detect_compaction_state (hook_state : Option HookState) (last_known_tokens : Option Nat)
    (current_tokens : Nat) (recently_modified : Bool) : CompactionState :=
  match hook_state with
  | some hs =>
    if hs.state = "compacting" then CompactionState.InProgress
    else detectFromHistory last_known_tokens current_tokens recently_modified
  | none => detectFromHistory last_known_tokens current_tokens recently_modified

/-- Spec-side predicate: a fresh hook signal reporting "compacting". -/
def hookCompacting : Option HookState → Bool
  | some hs => decide (hs.state = "compacting")
  | none => false

theorem detectFromHistory_eq (last : Option Nat) (current elapsed : Nat) :
    detectFromHistory last current (recentlyModified elapsed) =
      match last with
      | none => CompactionState.Normal
      | some lk =>
        if (1 : ℚ)/2 < ((lk - current : Nat) : ℚ) / (lk : ℚ) then
          if elapsed < 10 then CompactionState.InProgress
          else CompactionState.RecentlyCompleted
        else if elapsed < 10 ∧ 2 * current < lk then CompactionState.InProgress
        else CompactionState.Normal := by
  cases last with
  | none => rfl
  | some lk =>
    have hratio : (if 0 < lk then ((lk - current : Nat) : ℚ) / (lk : ℚ) else 0) =
        ((lk - current : Nat) : ℚ) / (lk : ℚ) := by
      by_cases h0 : 0 < lk
      · rw [if_pos h0]
      · have hz : lk = 0 := by omega
        subst hz
        simp
    have hand : (recentlyModified elapsed = true ∧ current * 2 < lk) ↔
        (elapsed < 10 ∧ 2 * current < lk) := by
      simp only [recentlyModified, decide_eq_true_eq]
      constructor
      · rintro ⟨a, b⟩; exact ⟨a, by omega⟩
      · rintro ⟨a, b⟩; exact ⟨a, by omega⟩
    have hrm : (recentlyModified elapsed = true) = (elapsed < 10) := by
      simp [recentlyModified]
    simp only [detectFromHistory, hratio]
    rw [if_congr Iff.rfl (if_congr (by rw [hrm]) rfl rfl)
      (if_congr hand rfl rfl)]

/-- C2: complete characterization of compaction-state detection, plus the
spec's concrete examples: a "compacting" hook signal always yields
`InProgress`; otherwise a drop ratio above one half yields `InProgress`
when the transcript was modified within the last 10 seconds and
`RecentlyCompleted` otherwise; otherwise a recently modified transcript
with `last_known > 2 × current` yields `InProgress`; every other case —
in particular whenever no prior token count exists — yields `Normal`. -/
theorem detect_compaction_state_spec (hook : Option HookState) (last : Option Nat)
    (current elapsed : Nat) :
    (detect_compaction_state hook last current (recentlyModified elapsed) =
      if hookCompacting hook then CompactionState.InProgress
      else
        match last with
        | none => CompactionState.Normal
        | some lk =>
          if (1 : ℚ)/2 < ((lk - current : Nat) : ℚ) / (lk : ℚ) then
            if elapsed < 10 then CompactionState.InProgress
            else CompactionState.RecentlyCompleted
          else if elapsed < 10 ∧ 2 * current < lk then CompactionState.InProgress
          else CompactionState.Normal) ∧
    detect_compaction_state none (some 200000) 50000 (recentlyModified 2) =
      CompactionState.InProgress ∧
    detect_compaction_state none (some 200000) 50000 (recentlyModified 30) =
      CompactionState.RecentlyCompleted ∧
    (∀ (h2 : Option HookState) (cur : Nat) (rm : Bool), hookCompacting h2 = false →
      detect_compaction_state h2 none cur rm = CompactionState.Normal) := by
  refine ⟨?_, ?_, ?_, ?_⟩
  · cases hook with
    | none =>
      simp only [detect_compaction_state, hookCompacting, Bool.false_eq_true, if_false]
      exact detectFromHistory_eq last current elapsed
    | some hs =>
      by_cases hcs : hs.state = "compacting"
      · simp [detect_compaction_state, hookCompacting, hcs]
      · simp only [detect_compaction_state, hookCompacting, hcs, if_neg hcs, decide_eq_true_eq,
          if_false, decide_False]
        exact detectFromHistory_eq last current elapsed
  · norm_num [detect_compaction_state, detectFromHistory, recentlyModified]
  · norm_num [detect_compaction_state, detectFromHistory, recentlyModified]
  · intro h2 cur rm hh
    cases h2 with
    | none => rfl
    | some hs =>
      have : ¬ hs.state = "compacting" := by
        simpa [hookCompacting] using hh
      simp [detect_compaction_state, this, detectFromHistory]

/-- Witness for C2: with no hook signal and no prior token count the result
is `Normal`. -/
theorem detect_compaction_state_spec_witness :
    hookCompacting none = false ∧
    detect_compaction_state none none 12345 true = CompactionState.Normal :=
  ⟨rfl, (detect_compaction_state_spec none none 0 0).2.2.2 none 12345 true rfl⟩

/-! ### Context configuration (src/config.rs lines 100-222, 370-426)

`f64` threshold and percentage values are modelled exactly in `ℚ`. -/

/-- `ContextConfig` (src/config.rs): `model_windows` is a `HashMap` in the
source, modelled as an association list. -/
structure ContextConfig where
  window_size : Nat
  model_windows : List (String × Nat)
  adaptive_learning : Bool
  learning_confidence_threshold : ℚ
  buffer_size : Nat
  auto_compact_threshold : ℚ
  percentage_mode : String

/-- `ContextConfig::default()` (src/config.rs lines 414-426). -/
def defaultContextConfig : ContextConfig :=
  { window_size := 200000
    model_windows := []
    adaptive_learning := false
    learning_confidence_threshold := 7/10
    buffer_size := 40000
    auto_compact_threshold := 75
    percentage_mode := "full" }

/-- `ContextConfig::get_effective_threshold` (src/config.rs lines 387-411):
a threshold counts as customized when it is more than 0.1 away from both
legacy defaults 75 and 80; otherwise the mode-aware default applies. -/
def ContextConfig.get_effective_threshold (c : ContextConfig) : ℚ :=
  if |c.auto_compact_threshold - 75| > 1/10 ∧ |c.auto_compact_threshold - 80| > 1/10 then
    c.auto_compact_threshold
  else if c.percentage_mode = "working" then 94
  else 75

/-! ### Context usage calculation (src/utils.rs lines 485-575)

The percentage is an `f64` in the source and can be `+∞` (positive tokens
against a zero-width window) or `NaN` (0/0); `F64Val` models exactly the
values this computation can produce.  In Rust `NaN >= t` is `false`,
`(x/0.0)` is `+∞` for `x > 0`, `+∞ >= t` is `true`, and `f64::min` ignores
a `NaN` argument, so `NaN.min(100.0) = 100.0` and `(+∞).min(100.0) = 100.0`. -/

inductive F64Val where
  | nan
  | posInf
  | fin (q : ℚ)

/-- `(t as f64 / w as f64) * 100.0` with the IEEE division-by-zero cases. -/
def f64DivMul100 (t w : Nat) : F64Val :=
  if w = 0 then (if t = 0 then F64Val.nan else F64Val.posInf)
  else F64Val.fin ((t : ℚ) / (w : ℚ) * 100)

/-- `percentage >= threshold` on `f64`: `NaN` compares false, `+∞` true. -/
def F64Val.geBool : F64Val → ℚ → Bool
  | F64Val.nan, _ => false
  | F64Val.posInf, _ => true
  | F64Val.fin q, thr => decide (thr ≤ q)

/-- `percentage.min(100.0)` on `f64`: `f64::min` ignores a `NaN` argument. -/
def F64Val.min100 : F64Val → ℚ
  | F64Val.nan => 100
  | F64Val.posInf => 100
  | F64Val.fin q => min q 100

/-- `ContextUsage` (models.rs, reproduced from §3 of the spec and the uses
in src/utils.rs). -/
structure ContextUsage where
  percentage : ℚ
  approaching_limit : Bool
  tokens_remaining : Nat
  compaction_state : CompactionState

/-- The `(full_window, working_window)` pair of `calculate_context_usage`
(src/utils.rs lines 509-519); `saturating_sub` is `Nat` subtraction. -/
def resolveWindows (cfg : ContextConfig) (base_window : Nat) : Nat × Nat :=
  if cfg.adaptive_learning then (base_window + cfg.buffer_size, base_window)
  else (base_window, base_window - cfg.buffer_size)

/-- The arithmetic core of `calculate_context_usage` (src/utils.rs lines
493-575), after the token total, the base window and the compaction state
have been obtained. -/
def calculate_context_usage_core (cfg : ContextConfig) (total_tokens base_window : Nat)
    (compaction_state : CompactionState) : ContextUsage :=
  let full_window := (resolveWindows cfg base_window).1
  let working_window := (resolveWindows cfg base_window).2
  let percentage : F64Val :=
    if cfg.percentage_mode = "working" then f64DivMul100 total_tokens working_window
    else f64DivMul100 total_tokens full_window
  let tokens_remaining := working_window - total_tokens
  let effective_threshold := cfg.get_effective_threshold
  { percentage := percentage.min100
    approaching_limit := percentage.geBool effective_threshold
    tokens_remaining := tokens_remaining
    compaction_state := compaction_state }

/-- C3: with adaptive learning disabled the working window is the full
window minus the buffer (floored at 0 by saturating subtraction), "full"
mode divides by the full window and "working" mode by the working window,
and on a 200,000-token window with 125,000 tokens the two modes give
exactly 62.5% and 78.125%. -/
theorem calculate_context_usage_modes :
    (∀ (cfg : ContextConfig) (base : Nat), cfg.adaptive_learning = false →
      (resolveWindows cfg base).2 = base - cfg.buffer_size) ∧
    (∀ (cfg : ContextConfig) (t base : Nat) (cs : CompactionState),
      cfg.adaptive_learning = false → cfg.percentage_mode = "full" →
      0 < base → t ≤ base →
      (calculate_context_usage_core cfg t base cs).percentage = (t : ℚ) / (base : ℚ) * 100) ∧
    (∀ (cfg : ContextConfig) (t base : Nat) (cs : CompactionState),
      cfg.adaptive_learning = false → cfg.percentage_mode = "working" →
      0 < base - cfg.buffer_size → t ≤ base - cfg.buffer_size →
      (calculate_context_usage_core cfg t base cs).percentage =
        (t : ℚ) / ((base - cfg.buffer_size : Nat) : ℚ) * 100) ∧
    (calculate_context_usage_core defaultContextConfig 125000 200000
      CompactionState.Normal).percentage = 62.5 ∧
    (calculate_context_usage_core { defaultContextConfig with percentage_mode := "working" }
      125000 200000 CompactionState.Normal).percentage = 78.125 ∧
    (200000 - 40000 : Nat) = 160000 := by
  have hfin : ∀ (t w : Nat), 0 < w → t ≤ w →
      (f64DivMul100 t w).min100 = (t : ℚ) / (w : ℚ) * 100 := by
    intro t w hw ht
    rw [f64DivMul100, if_neg (by omega), F64Val.min100]
    have hw' : (0 : ℚ) < (w : ℚ) := by exact_mod_cast hw
    have : (t : ℚ) / (w : ℚ) * 100 ≤ 100 := by
      have h1 : (t : ℚ) / (w : ℚ) ≤ 1 := by
        rw [div_le_one hw']
        exact_mod_cast ht
      nlinarith
    exact min_eq_left this
  refine ⟨?_, ?_, ?_, ?_, ?_, by norm_num⟩
  · intro cfg base hal
    rw [resolveWindows, if_neg (by simp [hal])]
  · intro cfg t base cs hal hmode hb ht
    have hm' : ¬ cfg.percentage_mode = "working" := by rw [hmode]; decide
    simp only [calculate_context_usage_core, resolveWindows, if_neg (by simp [hal] :
      ¬ cfg.adaptive_learning = true), if_neg hm']
    exact hfin t base hb ht
  · intro cfg t base cs hal hmode hb ht
    simp only [calculate_context_usage_core, resolveWindows, if_neg (by simp [hal] :
      ¬ cfg.adaptive_learning = true), if_pos hmode]
    exact hfin t (base - cfg.buffer_size) hb ht
  · have hsf : ¬ ("full" : String) = "working" := by decide
    simp only [calculate_context_usage_core, resolveWindows, defaultContextConfig,
      Bool.false_eq_true, if_false, if_neg hsf]
    rw [hfin 125000 200000 (by decide) (by decide)]
    norm_num
  · have hsw : ("working" : String) = "working" := rfl
    simp only [calculate_context_usage_core, resolveWindows, defaultContextConfig,
      Bool.false_eq_true, if_false, if_pos hsw, eq_self_iff_true, if_true]
    rw [show (200000 - 40000 : Nat) = 160000 from rfl,
      hfin 125000 160000 (by decide) (by decide)]
    norm_num

/-- Witness for C3: the "full"-mode formula instantiated at the spec's
example (default config, 125,000 tokens, 200,000-token window). -/
theorem calculate_context_usage_modes_witness :
    (calculate_context_usage_core defaultContextConfig 125000 200000
      CompactionState.Normal).percentage = (125000 : ℚ) / (200000 : ℚ) * 100 :=
  calculate_context_usage_modes.2.1 defaultContextConfig 125000 200000
    CompactionState.Normal rfl rfl (by decide) (by decide)

/-- C9: every `ContextUsage` produced by the calculation has a percentage
clamped into [0, 100] — including the degenerate zero-width working window,
where the raw IEEE ratio is infinite — and `tokens_remaining` is the
saturating difference `working_window - total_tokens`, never negative. -/
theorem calculate_context_usage_bounds (cfg : ContextConfig) (t base : Nat)
    (cs : CompactionState) :
    0 ≤ (calculate_context_usage_core cfg t base cs).percentage ∧
    (calculate_context_usage_core cfg t base cs).percentage ≤ 100 ∧
    ((calculate_context_usage_core cfg t base cs).tokens_remaining : ℤ) =
      max (((resolveWindows cfg base).2 : ℤ) - (t : ℤ)) 0 := by
  have hbounds : ∀ (a w : Nat), 0 ≤ (f64DivMul100 a w).min100 ∧ (f64DivMul100 a w).min100 ≤ 100 := by
    intro a w
    rw [f64DivMul100]
    by_cases hw : w = 0
    · rw [if_pos hw]
      by_cases ha : a = 0
      · rw [if_pos ha]
        exact ⟨by norm_num [F64Val.min100], by norm_num [F64Val.min100]⟩
      · rw [if_neg ha]
        exact ⟨by norm_num [F64Val.min100], by norm_num [F64Val.min100]⟩
    · rw [if_neg hw, F64Val.min100]
      constructor
      · apply le_min
        · positivity
        · norm_num
      · exact min_le_right _ _
  refine ⟨?_, ?_, ?_⟩
  · simp only [calculate_context_usage_core]
    by_cases hm : cfg.percentage_mode = "working"
    · rw [if_pos hm]; exact (hbounds t _).1
    · rw [if_neg hm]; exact (hbounds t _).1
  · simp only [calculate_context_usage_core]
    by_cases hm : cfg.percentage_mode = "working"
    · rw [if_pos hm]; exact (hbounds t _).2
    · rw [if_neg hm]; exact (hbounds t _).2
  · simp only [calculate_context_usage_core]
    omega

/-- Counterexample for C7: the threshold 80.05 differs from both legacy
defaults 75 and 80, yet `get_effective_threshold` returns the "full"-mode
default 75 rather than 80.05, because the source treats any value within
0.1 of a legacy default as non-custom. -/
theorem get_effective_threshold_cex :
    ({ defaultContextConfig with auto_compact_threshold := 1601/20 } :
        ContextConfig).auto_compact_threshold ≠ 75 ∧
    ({ defaultContextConfig with auto_compact_threshold := 1601/20 } :
        ContextConfig).auto_compact_threshold ≠ 80 ∧
    ({ defaultContextConfig with auto_compact_threshold := 1601/20 } :
        ContextConfig).get_effective_threshold = 75 := by
  refine ⟨by norm_num [defaultContextConfig], by norm_num [defaultContextConfig], ?_⟩
  have hsf : ¬ ("full" : String) = "working" := by decide
  have hnc : ¬ (|(1601/20 : ℚ) - 75| > 1/10 ∧ |(1601/20 : ℚ) - 80| > 1/10) := by
    rintro ⟨-, h⟩
    rw [show |(1601/20 : ℚ) - 80| = 1/20 by rw [abs_of_pos] <;> norm_num] at h
    norm_num at h
  show (if |(1601/20 : ℚ) - 75| > 1/10 ∧ |(1601/20 : ℚ) - 80| > 1/10 then (1601/20 : ℚ)
    else if ("full" : String) = "working" then 94 else 75) = 75
  rw [if_neg hnc, if_neg hsf]

/-- C7 (amended): the effective threshold is the configured
`auto_compact_threshold` whenever that value differs by more than 0.1 from
both legacy defaults 75 and 80; otherwise it is 75 in "full" mode and 94 in
"working" mode; and `approaching_limit` is true exactly when the computed
(unclamped) percentage is at least this effective threshold. -/
theorem get_effective_threshold_spec :
    (∀ c : ContextConfig,
      c.get_effective_threshold =
        if |c.auto_compact_threshold - 75| > 1/10 ∧ |c.auto_compact_threshold - 80| > 1/10 then
          c.auto_compact_threshold
        else if c.percentage_mode = "working" then 94 else 75) ∧
    (∀ (cfg : ContextConfig) (t base : Nat) (cs : CompactionState),
      (if cfg.percentage_mode = "working" then (resolveWindows cfg base).2
        else (resolveWindows cfg base).1) ≠ 0 →
      ((calculate_context_usage_core cfg t base cs).approaching_limit = true ↔
        cfg.get_effective_threshold ≤
          (t : ℚ) / ((if cfg.percentage_mode = "working" then (resolveWindows cfg base).2
            else (resolveWindows cfg base).1 : Nat) : ℚ) * 100)) := by
  constructor
  · intro c; rfl
  · intro cfg t base cs hw
    simp only [calculate_context_usage_core]
    by_cases hm : cfg.percentage_mode = "working"
    · rw [if_pos hm] at hw ⊢
      rw [if_pos hm, f64DivMul100, if_neg hw, F64Val.geBool]
      simp
    · rw [if_neg hm] at hw ⊢
      rw [if_neg hm, f64DivMul100, if_neg hw, F64Val.geBool]
      simp

/-- Witness for C7's amended theorem: default config, 150,000 tokens in the
200,000-token full window. -/
theorem get_effective_threshold_spec_witness :
    (calculate_context_usage_core defaultContextConfig 150000 200000
        CompactionState.Normal).approaching_limit = true ↔
      defaultContextConfig.get_effective_threshold ≤
        (150000 : ℚ) / ((if defaultContextConfig.percentage_mode = "working"
          then (resolveWindows defaultContextConfig 200000).2
          else (resolveWindows defaultContextConfig 200000).1 : Nat) : ℚ) * 100 :=
  get_effective_threshold_spec.2 defaultContextConfig 150000 200000
    CompactionState.Normal (by decide)

/-! ### Context window resolution (src/utils.rs lines 172-236)

`ModelType::from_name` lives in models.rs (not under src/); the resolver is
parameterized over it.  The learned-window oracle
(`get_learned_context_window`, backed by the database) is likewise a
parameter: `learned = some w` models `Ok(Some(w))`, anything else maps to
`none`.  The `HashMap` override lookup becomes an association-list lookup. -/

inductive ModelType where
  | Model (family : String) (version : String)
  | Unknown

/-- Split a character list on `'.'` (Rust `version.split('.')`). -/
def splitOnDot : List Char → List (List Char)
  | [] => [[]]
  | c :: rest =>
    if c = '.' then [] :: splitOnDot rest
    else
      match splitOnDot rest with
      | [] => [[c]]
      | h :: t => (c :: h) :: t

/-- Accumulate decimal digits; fails on any non-digit. -/
def digitsVal : List Char → Nat → Option Nat
  | [], acc => some acc
  | c :: rest, acc =>
    if '0' ≤ c ∧ c ≤ '9' then digitsVal rest (acc * 10 + (c.toNat - '0'.toNat))
    else none

/-- Rust `s.parse::<u32>().ok()`: an optional leading `+`, at least one
digit, no other characters, and the value must fit in 32 bits. -/
def parseU32 (piece : List Char) : Option Nat :=
  let digits := match piece with
    | '+' :: rest => rest
    | l => l
  match digits with
  | [] => none
  | _ =>
    match digitsVal digits 0 with
    | some n => if n < 2 ^ 32 then some n else none
    | none => none

/-- `version.split('.').next().and_then(parse).unwrap_or(0)`. -/
def parseMajorVersion (version : String) : Nat :=
  (((splitOnDot version.toList).head?).bind parseU32).getD 0

/-- `version.split('.').nth(1).and_then(parse).unwrap_or(0)`. -/
def parseMinorVersion (version : String) : Nat :=
  (((splitOnDot version.toList)[1]?).bind parseU32).getD 0

/-- Priority 3 of `get_context_window_for_model`: family/version defaults
applied to the parsed model type. -/
def smartDefaultWindow (model_type : ModelType) (cfg : ContextConfig) : Nat :=
  match model_type with
  | ModelType.Model family version =>
    let version_number := parseMajorVersion version
    let minor_version := parseMinorVersion version
    if family = "Sonnet" then
      if 4 ≤ version_number ∨ (version_number = 3 ∧ 5 ≤ minor_version) then 200000
      else 160000
    else if family = "Opus" then
      if 4 ≤ version_number ∨ (version_number = 3 ∧ 5 ≤ minor_version) then 200000
      else 160000
    else if family = "Haiku" then cfg.window_size
    else cfg.window_size
  | ModelType.Unknown => cfg.window_size

/-- `get_context_window_for_model` (src/utils.rs lines 172-236). -/
def get_context_window_for_model (from_name : String → ModelType) (learned : Option Nat)
    (model_name : Option String) (cfg : ContextConfig) : Nat :=
  match model_name with
  | some model =>
    match List.lookup model cfg.model_windows with
    | some custom_size => custom_size
    | none =>
      if cfg.adaptive_learning then
        match learned with
        | some window => window
        | none => smartDefaultWindow (from_name model) cfg
      else smartDefaultWindow (from_name model) cfg
  | none => cfg.window_size

/-- C4: the strict resolution priority of the context window — an exact
override wins over everything (in particular over any learned value); with
adaptive learning on, a confident learned value comes next; otherwise
Sonnet/Opus at major ≥ 4 or 3.5+ give 200,000, older Sonnet/Opus give
160,000, Haiku and unrecognized families give the configured default
(200,000 in the default config); and no model name gives the configured
default. -/
theorem get_context_window_for_model_spec :
    (∀ (from_name : String → ModelType) (learned : Option Nat) (m : String)
        (cfg : ContextConfig) (w : Nat),
      List.lookup m cfg.model_windows = some w →
      get_context_window_for_model from_name learned (some m) cfg = w) ∧
    (∀ (from_name : String → ModelType) (v : Nat) (m : String) (cfg : ContextConfig),
      List.lookup m cfg.model_windows = none → cfg.adaptive_learning = true →
      get_context_window_for_model from_name (some v) (some m) cfg = v) ∧
    (∀ (from_name : String → ModelType) (learned : Option Nat) (m : String)
        (cfg : ContextConfig) (fam ver : String),
      List.lookup m cfg.model_windows = none →
      (cfg.adaptive_learning = false ∨ learned = none) →
      from_name m = ModelType.Model fam ver →
      (fam = "Sonnet" ∨ fam = "Opus") →
      ((4 ≤ parseMajorVersion ver ∨ (parseMajorVersion ver = 3 ∧ 5 ≤ parseMinorVersion ver)) →
        get_context_window_for_model from_name learned (some m) cfg = 200000) ∧
      (¬(4 ≤ parseMajorVersion ver ∨ (parseMajorVersion ver = 3 ∧ 5 ≤ parseMinorVersion ver)) →
        get_context_window_for_model from_name learned (some m) cfg = 160000)) ∧
    (∀ (from_name : String → ModelType) (learned : Option Nat) (m : String)
        (cfg : ContextConfig),
      List.lookup m cfg.model_windows = none →
      (cfg.adaptive_learning = false ∨ learned = none) →
      (from_name m = ModelType.Unknown ∨
        ∃ fam ver, from_name m = ModelType.Model fam ver ∧ fam ≠ "Sonnet" ∧ fam ≠ "Opus") →
      get_context_window_for_model from_name learned (some m) cfg = cfg.window_size) ∧
    (∀ (from_name : String → ModelType) (learned : Option Nat) (cfg : ContextConfig),
      get_context_window_for_model from_name learned none cfg = cfg.window_size) ∧
    defaultContextConfig.window_size = 200000 := by
  have hsmart : ∀ (from_name : String → ModelType) (learned : Option Nat) (m : String)
      (cfg : ContextConfig),
      List.lookup m cfg.model_windows = none →
      (cfg.adaptive_learning = false ∨ learned = none) →
      get_context_window_for_model from_name learned (some m) cfg =
        smartDefaultWindow (from_name m) cfg := by
    intro from_name learned m cfg hlk hno
    simp only [get_context_window_for_model, hlk]
    rcases hno with hno | hno
    · rw [hno]
      simp
    · subst hno
      by_cases hal : cfg.adaptive_learning <;> simp [hal]
  have hmodel : ∀ (fam ver : String) (cfg : ContextConfig),
      smartDefaultWindow (ModelType.Model fam ver) cfg =
        if fam = "Sonnet" then
          if 4 ≤ parseMajorVersion ver ∨ (parseMajorVersion ver = 3 ∧ 5 ≤ parseMinorVersion ver)
            then 200000 else 160000
        else if fam = "Opus" then
          if 4 ≤ parseMajorVersion ver ∨ (parseMajorVersion ver = 3 ∧ 5 ≤ parseMinorVersion ver)
            then 200000 else 160000
        else if fam = "Haiku" then cfg.window_size
        else cfg.window_size := fun _ _ _ => rfl
  refine ⟨?_, ?_, ?_, ?_, ?_, rfl⟩
  · intro from_name learned m cfg w hlk
    simp only [get_context_window_for_model, hlk]
  · intro from_name v m cfg hlk hal
    simp only [get_context_window_for_model, hlk, if_pos hal]
  · intro from_name learned m cfg fam ver hlk hno hfn hfam
    rw [hsmart from_name learned m cfg hlk hno, hfn, hmodel]
    constructor
    · intro hv
      rcases hfam with rfl | rfl
      · rw [if_pos rfl, if_pos hv]
      · rw [if_neg (by decide), if_pos rfl, if_pos hv]
    · intro hv
      rcases hfam with rfl | rfl
      · rw [if_pos rfl, if_neg hv]
      · rw [if_neg (by decide), if_pos rfl, if_neg hv]
  · intro from_name learned m cfg hlk hno hfn
    rw [hsmart from_name learned m cfg hlk hno]
    rcases hfn with hfn | ⟨fam, ver, hfn, hs, ho⟩
    · rw [hfn]
      rfl
    · rw [hfn, hmodel, if_neg hs, if_neg ho]
      by_cases hh : fam = "Haiku"
      · rw [if_pos hh]
      · rw [if_neg hh]
  · intro from_name learned cfg
    rfl

/-- Witness for C4: a user override beats the heuristic and the learned
value; a Sonnet 4.5 without override resolves to 200,000. -/
theorem get_context_window_for_model_spec_witness :
    get_context_window_for_model (fun _ => ModelType.Model "Sonnet" "4.5") (some 156000)
      (some "My Model") { defaultContextConfig with model_windows := [("My Model", 123456)] }
      = 123456 ∧
    get_context_window_for_model (fun _ => ModelType.Model "Sonnet" "4.5") none
      (some "Claude Sonnet 4.5") defaultContextConfig = 200000 :=
  ⟨get_context_window_for_model_spec.1 (fun _ => ModelType.Model "Sonnet" "4.5") (some 156000)
      "My Model" { defaultContextConfig with model_windows := [("My Model", 123456)] }
      123456 (by decide),
   (get_context_window_for_model_spec.2.2.1 (fun _ => ModelType.Model "Sonnet" "4.5") none
      "Claude Sonnet 4.5" defaultContextConfig "Sonnet" "4.5" rfl (Or.inr rfl) rfl
      (Or.inl rfl)).1 (by decide)⟩

/-! ### Token extraction (src/utils.rs lines 275-379)

Transcript lines are modelled after `serde_json::from_str::<TranscriptEntry>`:
each element of the trailing window is `some entry` when the line parses and
`none` when it does not.  The u32 token fields are `Nat`; u32 arithmetic is
exact below `2^32`, which the selection theorem assumes explicitly (the
source adds four u32 counts whose wrap-around regime is unreachable for
parseable transcripts of realistic size). -/

/-- The `usage` object of a transcript message (optional u32 counts). -/
structure Usage where
  input_tokens : Option Nat
  output_tokens : Option Nat
  cache_read_input_tokens : Option Nat
  cache_creation_input_tokens : Option Nat
deriving DecidableEq

/-- The `message` object of a transcript entry. -/
structure TranscriptMessage where
  role : String
  usage : Option Usage
deriving DecidableEq

/-- A parsed transcript line (models.rs; fields as used in src/utils.rs). -/
structure TranscriptEntry where
  message : TranscriptMessage
  timestamp : String
deriving DecidableEq

/-- `TokenBreakdown` (models.rs; field names as constructed in
src/utils.rs lines 362-367). -/
structure TokenBreakdown where
  input_tokens : Nat
  output_tokens : Nat
  cache_read_tokens : Nat
  cache_creation_tokens : Nat
deriving DecidableEq

/-- Modelled from the spec (§3; models.rs is not under src/):
`total()` is the sum of the four counts. -/
def TokenBreakdown.total (b : TokenBreakdown) : Nat :=
  b.input_tokens + b.output_tokens + b.cache_read_tokens + b.cache_creation_tokens

/-- One iteration of the selection loop in
`get_token_breakdown_from_transcript` (src/utils.rs lines 348-372); the
accumulator is `(best_breakdown, max_total)`. -/
def scanStep (acc : TokenBreakdown × Nat) (line : Option TranscriptEntry) :
    TokenBreakdown × Nat :=
  match line with
  | some entry =>
    if entry.message.role = "assistant" then
      match entry.message.usage with
      | some usage =>
        let input := usage.input_tokens.getD 0
        let cache_read := usage.cache_read_input_tokens.getD 0
        let cache_creation := usage.cache_creation_input_tokens.getD 0
        let output := usage.output_tokens.getD 0
        let current_total := input + cache_read + cache_creation + output
        if acc.2 < current_total then
          ({ input_tokens := input, output_tokens := output,
             cache_read_tokens := cache_read, cache_creation_tokens := cache_creation },
           current_total)
        else acc
      | none => acc
    else acc
  | none => acc

/-- The selection core of `get_token_breakdown_from_transcript`, applied to
the parsed trailing window. -/
def get_token_breakdown_core (lines : List (Option TranscriptEntry)) :
    Option TokenBreakdown :=
  let r := lines.foldl scanStep (⟨0, 0, 0, 0⟩, 0)
  if 0 < r.2 then some r.1 else none

/-- Spec-side view: the breakdown carried by a parsed assistant entry with
usage data, if any. -/
def entryUsageBreakdown? : Option TranscriptEntry → Option TokenBreakdown
  | some e =>
    if e.message.role = "assistant" then
      e.message.usage.map (fun u =>
        { input_tokens := u.input_tokens.getD 0
          output_tokens := u.output_tokens.getD 0
          cache_read_tokens := u.cache_read_input_tokens.getD 0
          cache_creation_tokens := u.cache_creation_input_tokens.getD 0 })
    else none
  | none => none

/-- All breakdowns of assistant entries carrying usage data in the window. -/
def assistantUsages (lines : List (Option TranscriptEntry)) : List TokenBreakdown :=
  lines.filterMap entryUsageBreakdown?

theorem scanStep_none {line : Option TranscriptEntry} {acc : TokenBreakdown × Nat}
    (h : entryUsageBreakdown? line = none) : scanStep acc line = acc := by
  cases line with
  | none => rfl
  | some e =>
    rw [entryUsageBreakdown?] at h
    by_cases hrole : e.message.role = "assistant"
    · rw [if_pos hrole] at h
      cases hu : e.message.usage with
      | none => simp only [scanStep, if_pos hrole, hu]
      | some u => rw [hu] at h; cases h
    · simp only [scanStep, if_neg hrole]

theorem scanStep_some {line : Option TranscriptEntry} {acc : TokenBreakdown × Nat}
    {b : TokenBreakdown} (h : entryUsageBreakdown? line = some b) :
    scanStep acc line = if acc.2 < b.total then (b, b.total) else acc := by
  cases line with
  | none => cases h
  | some e =>
    rw [entryUsageBreakdown?] at h
    by_cases hrole : e.message.role = "assistant"
    · rw [if_pos hrole] at h
      cases hu : e.message.usage with
      | none => rw [hu] at h; cases h
      | some u =>
        rw [hu] at h
        simp only [Option.map_some'] at h
        cases h
        simp only [scanStep, if_pos hrole, hu]
        have ht : u.input_tokens.getD 0 + u.cache_read_input_tokens.getD 0 +
            u.cache_creation_input_tokens.getD 0 + u.output_tokens.getD 0 =
            TokenBreakdown.total
              { input_tokens := u.input_tokens.getD 0
                output_tokens := u.output_tokens.getD 0
                cache_read_tokens := u.cache_read_input_tokens.getD 0
                cache_creation_tokens := u.cache_creation_input_tokens.getD 0 } := by
          simp only [TokenBreakdown.total]
          omega
        rw [ht]
    · rw [if_neg hrole] at h
      cases h

theorem le_foldl_max : ∀ (l : List Nat) (a : Nat), a ≤ l.foldl max a
  | [], _ => le_refl _
  | x :: xs, a => le_trans (le_max_left a x) (le_foldl_max xs (max a x))

theorem mem_le_foldl_max {x : Nat} : ∀ {l : List Nat}, x ∈ l → ∀ (a : Nat), x ≤ l.foldl max a := by
  intro l hx
  induction l with
  | nil => cases hx
  | cons y ys ih =>
    intro a
    rcases List.mem_cons.mp hx with rfl | hmem
    · exact le_trans (le_max_right a x) (le_foldl_max ys (max a x))
    · exact ih hmem (max a y)

theorem foldl_max_le {c : Nat} : ∀ {l : List Nat} {a : Nat},
    a ≤ c → (∀ x ∈ l, x ≤ c) → l.foldl max a ≤ c := by
  intro l
  induction l with
  | nil => intro a ha _; exact ha
  | cons y ys ih =>
    intro a ha hall
    exact ih (max_le ha (hall y (List.mem_cons_self y ys)))
      (fun x hx => hall x (List.mem_cons_of_mem y hx))

theorem scan_spec : ∀ (lines : List (Option TranscriptEntry)) (acc : TokenBreakdown × Nat),
    (lines.foldl scanStep acc).2 =
      ((assistantUsages lines).map TokenBreakdown.total).foldl max acc.2 ∧
    (((lines.foldl scanStep acc).1 = acc.1 ∧ (lines.foldl scanStep acc).2 = acc.2) ∨
      ((lines.foldl scanStep acc).1 ∈ assistantUsages lines ∧
        (lines.foldl scanStep acc).1.total = (lines.foldl scanStep acc).2)) := by
  intro lines
  induction lines with
  | nil => intro acc; exact ⟨rfl, Or.inl ⟨rfl, rfl⟩⟩
  | cons line rest ih =>
    intro acc
    rw [List.foldl_cons]
    cases hline : entryUsageBreakdown? line with
    | none =>
      rw [scanStep_none hline]
      have husage : assistantUsages (line :: rest) = assistantUsages rest := by
        simp [assistantUsages, List.filterMap_cons, hline]
      rw [husage]
      exact ih acc
    | some b =>
      rw [scanStep_some hline]
      have husage : assistantUsages (line :: rest) = b :: assistantUsages rest := by
        simp [assistantUsages, List.filterMap_cons, hline]
      rw [husage]
      by_cases hlt : acc.2 < b.total
      · rw [if_pos hlt]
        obtain ⟨ih1, ih2⟩ := ih (b, b.total)
        constructor
        · rw [ih1]
          simp only [List.map_cons, List.foldl_cons]
          have : max acc.2 b.total = b.total := by omega
          rw [this]
        · rcases ih2 with ⟨e1, e2⟩ | ⟨hmem, htot⟩
          · exact Or.inr ⟨by rw [e1]; exact List.mem_cons_self b _, by rw [e1, e2]⟩
          · exact Or.inr ⟨List.mem_cons_of_mem b hmem, htot⟩
      · rw [if_neg hlt]
        obtain ⟨ih1, ih2⟩ := ih acc
        constructor
        · rw [ih1]
          simp only [List.map_cons, List.foldl_cons]
          have : max acc.2 b.total = acc.2 := by omega
          rw [this]
        · rcases ih2 with ⟨e1, e2⟩ | ⟨hmem, htot⟩
          · exact Or.inl ⟨e1, e2⟩
          · exact Or.inr ⟨List.mem_cons_of_mem b hmem, htot⟩

/-- A parseable assistant entry that carries usage data whose counts are all
zero. -/
def zeroUsageEntry : TranscriptEntry :=
  { message :=
      { role := "assistant"
        usage := some
          { input_tokens := some 0
            output_tokens := some 0
            cache_read_input_tokens := some 0
            cache_creation_input_tokens := some 0 } }
    timestamp := "2025-08-22T18:32:37.789Z" }

/-- Counterexample for C5: a window containing an assistant-authored entry
with usage data for which extraction nevertheless returns `none` — the
source requires a strictly positive maximum total (`max_total > 0`), so an
all-zero usage block yields no data, contradicting the claim that any
window with at least one assistant usage entry produces a breakdown. -/
theorem get_token_breakdown_core_cex :
    zeroUsageEntry.message.role = "assistant" ∧
    zeroUsageEntry.message.usage.isSome = true ∧
    get_token_breakdown_core [some zeroUsageEntry] = none := by
  refine ⟨rfl, rfl, ?_⟩
  decide

/-- C5 (amended): whenever the trailing window contains an assistant-authored
entry with usage data of positive total, extraction returns the breakdown of
an entry of maximal total token count (not the most recent); it returns
`none` when every assistant usage entry in the window (if any) has total 0 —
in particular when no assistant entry carries usage data or every line fails
to parse.  Stated under the hypothesis that entry totals fit in 32 bits,
where the source's u32 arithmetic is exact. -/
theorem get_token_breakdown_core_spec (lines : List (Option TranscriptEntry))
    (h32 : ∀ b ∈ assistantUsages lines, b.total < 2 ^ 32) :
    ((∀ b ∈ assistantUsages lines, b.total = 0) →
      get_token_breakdown_core lines = none) ∧
    (∀ b0 ∈ assistantUsages lines, 0 < b0.total →
      ∃ b, get_token_breakdown_core lines = some b ∧ b ∈ assistantUsages lines ∧
        ∀ b2 ∈ assistantUsages lines, b2.total ≤ b.total) := by
  clear h32
  obtain ⟨h2eq, hdisj⟩ := scan_spec lines (⟨0, 0, 0, 0⟩, 0)
  constructor
  · intro hz
    have hle : (lines.foldl scanStep (⟨0, 0, 0, 0⟩, 0)).2 ≤ 0 := by
      rw [h2eq]
      apply foldl_max_le (le_refl 0)
      intro x hx
      obtain ⟨b, hb, rfl⟩ := List.mem_map.mp hx
      exact le_of_eq (hz b hb)
    rw [get_token_breakdown_core, if_neg (by omega)]
  · intro b0 hb0 hpos
    have hge : b0.total ≤ (lines.foldl scanStep (⟨0, 0, 0, 0⟩, 0)).2 := by
      rw [h2eq]
      exact mem_le_foldl_max (List.mem_map.mpr ⟨b0, hb0, rfl⟩) 0
    have hpos2 : 0 < (lines.foldl scanStep (⟨0, 0, 0, 0⟩, 0)).2 := by omega
    refine ⟨(lines.foldl scanStep (⟨0, 0, 0, 0⟩, 0)).1, ?_, ?_, ?_⟩
    · rw [get_token_breakdown_core, if_pos hpos2]
    · rcases hdisj with ⟨-, e2⟩ | ⟨hmem, -⟩
      · omega
      · exact hmem
    · rcases hdisj with ⟨-, e2⟩ | ⟨-, htot⟩
      · omega
      · intro b2 hb2
        rw [htot, h2eq]
        exact mem_le_foldl_max (List.mem_map.mpr ⟨b2, hb2, rfl⟩) 0

/-- An assistant entry with 100 input and 5 output tokens. -/
def sampleUsageEntry : TranscriptEntry :=
  { message :=
      { role := "assistant"
        usage := some
          { input_tokens := some 100
            output_tokens := some 5
            cache_read_input_tokens := none
            cache_creation_input_tokens := none } }
    timestamp := "2025-08-22T18:32:37.789Z" }

/-- Witness for C5's amended theorem on a one-entry window. -/
theorem get_token_breakdown_core_spec_witness :
    (∀ b ∈ assistantUsages [some sampleUsageEntry], b.total < 2 ^ 32) ∧
    (∃ b, get_token_breakdown_core [some sampleUsageEntry] = some b ∧
      b ∈ assistantUsages [some sampleUsageEntry] ∧
      ∀ b2 ∈ assistantUsages [some sampleUsageEntry], b2.total ≤ b.total) :=
  ⟨by decide,
   (get_token_breakdown_core_spec [some sampleUsageEntry] (by decide)).2
     ⟨100, 5, 0, 0⟩ (by decide) (by decide)⟩

/-! ### Transcript path validation and its callers
(src/common.rs lines 123-135, src/utils.rs lines 239-273, 277-379, 485-575,
577-614)

The filesystem is abstracted: `canonicalize` returns the canonical path of
an existing file (`none` when `fs::canonicalize` fails, which covers
non-existent paths and unresolvable segments), `info` gives the metadata
the validator inspects (regular-file flag and the `Path::extension()` of
the canonical path), and `content` maps a canonical path to the parsed
trailing window of its lines.  Failure is `none` throughout, mirroring the
`Result`-to-`Option` conversions (`.ok()?`) in the source. -/

/-- Metadata of a canonicalized path, as inspected by
`validate_transcript_file`. -/
structure FileInfo where
  is_file : Bool
  extension : Option String

/-- The filesystem oracle. -/
structure FileSystem where
  canonicalize : String → Option String
  info : String → FileInfo

/-- Rust `a.eq_ignore_ascii_case(b)` (Lean's `Char.toLower` lowers exactly
the ASCII uppercase range, as Rust's ASCII comparison does). -/
def eqIgnoreAsciiCase (a b : String) : Bool :=
  a.toList.map Char.toLower == b.toList.map Char.toLower

/-- `validate_path_security` (src/common.rs lines 123-135): reject null
bytes, then canonicalize. -/
def validate_path_security (fs : FileSystem) (path : String) : Option String :=
  if '\x00' ∈ path.toList then none
  else fs.canonicalize path

/-- `validate_transcript_file` (src/utils.rs lines 239-273): security
validation, then regular-file check, then case-insensitive `.jsonl`
extension check. -/
def validate_transcript_file (fs : FileSystem) (path : String) : Option String :=
  match validate_path_security fs path with
  | none => none
  | some canonical_path =>
    if (fs.info canonical_path).is_file = false then none
    else
      match (fs.info canonical_path).extension with
      | some ext => if eqIgnoreAsciiCase ext "jsonl" then some canonical_path else none
      | none => none

/-- `get_token_breakdown_from_transcript` (src/utils.rs lines 288-379):
validate, then run the selection core on the trailing window. -/
def get_token_breakdown_from_transcript (fs : FileSystem)
    (content : String → List (Option TranscriptEntry)) (transcript_path : String) :
    Option TokenBreakdown :=
  match validate_transcript_file fs transcript_path with
  | none => none
  | some safe_path => get_token_breakdown_core (content safe_path)

/-- `get_token_count_from_transcript` (src/utils.rs lines 277-279). -/
def get_token_count_from_transcript (fs : FileSystem)
    (content : String → List (Option TranscriptEntry)) (transcript_path : String) :
    Option Nat :=
  (get_token_breakdown_from_transcript fs content transcript_path).map TokenBreakdown.total

/-- The transcript-recency probe inside `detect_compaction_state`
(src/utils.rs lines 420-436): it re-validates the path and checks the mtime
distance (`elapsed` is `none` when the metadata or mtime is unavailable). -/
def transcriptRecentlyModified (fs : FileSystem) (elapsed : Option Nat)
    (transcript_path : String) : Bool :=
  match validate_transcript_file fs transcript_path, elapsed with
  | some _, some e => recentlyModified e
  | _, _ => false

/-- `calculate_context_usage` (src/utils.rs lines 485-575): token count
(`None` propagates), compaction state, window resolution, then the
arithmetic core. -/
def calculate_context_usage (fs : FileSystem)
    (content : String → List (Option TranscriptEntry)) (from_name : String → ModelType)
    (learned : Option Nat) (hook : Option HookState) (last_known : Option Nat)
    (elapsed : Option Nat) (transcript_path : String) (model_name : Option String)
    (cfg : ContextConfig) : Option ContextUsage :=
  match get_token_count_from_transcript fs content transcript_path with
  | none => none
  | some total_tokens =>
    let compaction_state := detect_compaction_state hook last_known total_tokens
      (transcriptRecentlyModified fs elapsed transcript_path)
    let base_window := get_context_window_for_model from_name learned model_name cfg
    some (calculate_context_usage_core cfg total_tokens base_window compaction_state)

/-- The last parse-ok entry of the transcript (the loop in `parse_duration`
overwrites `last_timestamp` on every line that parses). -/
def lastParsed (lines : List (Option TranscriptEntry)) : Option TranscriptEntry :=
  lines.foldl (fun acc l => match l with | some e => some e | none => acc) none

/-- `parse_duration` (src/utils.rs lines 577-614): validate, then take the
first line's timestamp and the last parse-ok line's timestamp (`parse_ts`
models `parse_iso8601_to_unix`, i.e. chrono); positive difference only. -/
def parse_duration (fs : FileSystem) (content : String → List (Option TranscriptEntry))
    (parse_ts : String → Option Nat) (transcript_path : String) : Option Nat :=
  match validate_transcript_file fs transcript_path with
  | none => none
  | some safe_path =>
    let lines := content safe_path
    let first_timestamp : Option Nat :=
      match lines with
      | [] => none
      | l :: _ => match l with | some e => parse_ts e.timestamp | none => none
    let last_timestamp : Option Nat :=
      match lastParsed lines with
      | some e => parse_ts e.timestamp
      | none => none
    match first_timestamp, last_timestamp with
    | some first, some last => if first < last then some (last - first) else none
    | _, _ => none

/-- C6: any transcript path with an embedded null byte, or that cannot be
canonicalized, or whose canonical target is not a regular file, or whose
extension is not a case-insensitive `jsonl`, fails validation; and token
extraction, context-usage calculation and duration parsing all turn that
failure into `none` — for every possible file content, i.e. without reading
the file. -/
theorem validate_transcript_file_spec (fs : FileSystem) (path : String)
    (h : '\x00' ∈ path.toList ∨
      fs.canonicalize path = none ∨
      (∃ c, fs.canonicalize path = some c ∧ (fs.info c).is_file = false) ∨
      (∃ c, fs.canonicalize path = some c ∧
        ∀ ext, (fs.info c).extension = some ext → eqIgnoreAsciiCase ext "jsonl" = false)) :
    validate_transcript_file fs path = none ∧
    (∀ content, get_token_breakdown_from_transcript fs content path = none) ∧
    (∀ content from_name learned hook last_known elapsed model_name cfg,
      calculate_context_usage fs content from_name learned hook last_known elapsed
        path model_name cfg = none) ∧
    (∀ content parse_ts, parse_duration fs content parse_ts path = none) := by
  have hv : validate_transcript_file fs path = none := by
    rcases h with hnull | hcanon | ⟨c, hc, hfile⟩ | ⟨c, hc, hext⟩
    · rw [validate_transcript_file, validate_path_security, if_pos hnull]
    · rw [validate_transcript_file, validate_path_security]
      by_cases hnull : '\x00' ∈ path.toList
      · rw [if_pos hnull]
      · rw [if_neg hnull, hcanon]
    · rw [validate_transcript_file, validate_path_security]
      by_cases hnull : '\x00' ∈ path.toList
      · rw [if_pos hnull]
      · rw [if_neg hnull, hc]
        show (if (fs.info c).is_file = false then none
          else match (fs.info c).extension with
            | some ext => if eqIgnoreAsciiCase ext "jsonl" then some c else none
            | none => none) = none
        rw [if_pos hfile]
    · rw [validate_transcript_file, validate_path_security]
      by_cases hnull : '\x00' ∈ path.toList
      · rw [if_pos hnull]
      · rw [if_neg hnull, hc]
        show (if (fs.info c).is_file = false then none
          else match (fs.info c).extension with
            | some ext => if eqIgnoreAsciiCase ext "jsonl" then some c else none
            | none => none) = none
        by_cases hfile : (fs.info c).is_file = false
        · rw [if_pos hfile]
        · rw [if_neg hfile]
          cases hx : (fs.info c).extension with
          | none => rfl
          | some ext =>
            show (if eqIgnoreAsciiCase ext "jsonl" = true then some c else none) = none
            rw [hext ext hx]
            simp
  have hb : ∀ content, get_token_breakdown_from_transcript fs content path = none := by
    intro content
    rw [get_token_breakdown_from_transcript, hv]
  refine ⟨hv, hb, ?_, ?_⟩
  · intro content from_name learned hook last_known elapsed model_name cfg
    have hcount : get_token_count_from_transcript fs content path = none := by
      rw [get_token_count_from_transcript, hb content]
      rfl
    rw [calculate_context_usage, hcount]
  · intro content parse_ts
    rw [parse_duration, hv]

/-- A filesystem on which every path canonicalizes to itself as a regular
`.jsonl` file — so only the null byte in the path below causes rejection. -/
def permissiveFs : FileSystem :=
  { canonicalize := fun p => some p
    info := fun _ => { is_file := true, extension := some "jsonl" } }

/-- Witness for C6: a null-byte path on an otherwise permissive filesystem,
with concrete instantiations of the content-independence conjuncts. -/
theorem validate_transcript_file_spec_witness :
    validate_transcript_file permissiveFs "/tmp/test\x00.jsonl" = none ∧
    get_token_breakdown_from_transcript permissiveFs (fun _ => [some sampleUsageEntry])
      "/tmp/test\x00.jsonl" = none ∧
    calculate_context_usage permissiveFs (fun _ => [some sampleUsageEntry])
      (fun _ => ModelType.Unknown) none none none none "/tmp/test\x00.jsonl" none
      defaultContextConfig = none ∧
    parse_duration permissiveFs (fun _ => [some sampleUsageEntry]) (fun _ => some 0)
      "/tmp/test\x00.jsonl" = none :=
  ⟨(validate_transcript_file_spec permissiveFs "/tmp/test\x00.jsonl" (Or.inl (by decide))).1,
   (validate_transcript_file_spec permissiveFs "/tmp/test\x00.jsonl"
     (Or.inl (by decide))).2.1 (fun _ => [some sampleUsageEntry]),
   (validate_transcript_file_spec permissiveFs "/tmp/test\x00.jsonl"
     (Or.inl (by decide))).2.2.1 (fun _ => [some sampleUsageEntry])
     (fun _ => ModelType.Unknown) none none none none none defaultContextConfig,
   (validate_transcript_file_spec permissiveFs "/tmp/test\x00.jsonl"
     (Or.inl (by decide))).2.2.2 (fun _ => [some sampleUsageEntry]) (fun _ => some 0)⟩

/-! ### Stats store (spec §3, §4.5)

The stats-store implementation (database.rs / stats.rs) is not under
`src/`; only its integration tests are.  The ledger and its `record`
operation are therefore modelled from the spec.  USD costs (`f64` in the
callers) are modelled exactly in `ℚ`; keyed tables become association
lists updated in place. -/

/-- A session row (spec §3 "Session"). -/
structure SessionRow where
  start_time : String
  last_updated : String
  cost : ℚ
  lines_added : Nat
  lines_removed : Nat
  max_tokens_seen : Nat

/-- A daily or monthly aggregate bucket (spec §3 "DailyStats/MonthlyStats");
line totals are integers because deltas may be negative. -/
structure PeriodBucket where
  total_cost : ℚ
  total_lines_added : ℤ
  total_lines_removed : ℤ
  sessions : List String

/-- The whole ledger (sessions, daily and monthly buckets, all-time
totals; spec §3 "AllTimeStats"). -/
structure StatsStore where
  sessions : List (String × SessionRow)
  daily : List (String × PeriodBucket)
  monthly : List (String × PeriodBucket)
  total_cost : ℚ
  session_count : Nat

/-- First-match association-list lookup. -/
def lookupA {V : Type} : List (String × V) → String → Option V
  | [], _ => none
  | (k', v) :: rest, k => if k' = k then some v else lookupA rest k

/-- Update the first entry with key `k` in place, or append a new entry. -/
def updateA {V : Type} (k : String) (f : Option V → V) :
    List (String × V) → List (String × V)
  | [] => [(k, f none)]
  | (k', v) :: rest =>
    if k' = k then (k', f (some v)) :: rest
    else (k', v) :: updateA k f rest

/-- The empty ledger. -/
def emptyStats : StatsStore :=
  { sessions := [], daily := [], monthly := [], total_cost := 0, session_count := 0 }

/-- The stored cost of an optional session row (0 if unseen). -/
def optCost : Option SessionRow → ℚ
  | some r => r.cost
  | none => 0

/-- Modelled from the spec: `record(session_id, cost, lines_added,
lines_removed, timestamp)` of the Stats Store (§4.5; database.rs/stats.rs
are not under src/).  Deltas are computed against the session's previously
stored absolute values, the session row is replaced, the daily and monthly
buckets keyed by the invocation's calendar date/month accumulate the
deltas and collect the session id, the all-time total adds the cost delta
(equivalently: stays the sum of current per-session absolutes), the
session count increments only for unseen ids, and the token high-water
mark is kept. -/
def record (s : StatsStore) (session_id : String) (cost : ℚ)
    (lines_added lines_removed : Nat) (date month timestamp : String)
    (current_tokens : Nat) : StatsStore :=
  let prev := lookupA s.sessions session_id
  let cost_delta : ℚ := cost - optCost prev
  let la_delta : ℤ := (lines_added : ℤ) -
    (match prev with | some r => (r.lines_added : ℤ) | none => 0)
  let lr_delta : ℤ := (lines_removed : ℤ) -
    (match prev with | some r => (r.lines_removed : ℤ) | none => 0)
  let newRow : Option SessionRow → SessionRow := fun old =>
    match old with
    | some r =>
      { r with
        cost := cost
        lines_added := lines_added
        lines_removed := lines_removed
        last_updated := timestamp
        max_tokens_seen := max r.max_tokens_seen current_tokens }
    | none =>
      { start_time := timestamp
        last_updated := timestamp
        cost := cost
        lines_added := lines_added
        lines_removed := lines_removed
        max_tokens_seen := current_tokens }
  let bump : Option PeriodBucket → PeriodBucket := fun old =>
    match old with
    | some b =>
      { total_cost := b.total_cost + cost_delta
        total_lines_added := b.total_lines_added + la_delta
        total_lines_removed := b.total_lines_removed + lr_delta
        sessions := if session_id ∈ b.sessions then b.sessions
          else b.sessions ++ [session_id] }
    | none =>
      { total_cost := cost_delta, total_lines_added := la_delta,
        total_lines_removed := lr_delta, sessions := [session_id] }
  { sessions := updateA session_id newRow s.sessions
    daily := updateA date bump s.daily
    monthly := updateA month bump s.monthly
    total_cost := s.total_cost + cost_delta
    session_count := if (lookupA s.sessions session_id).isSome then s.session_count
      else s.session_count + 1 }

/-- Observation: a session's currently stored absolute cost (0 if unseen). -/
def sessionCost (s : StatsStore) (sid : String) : ℚ :=
  optCost (lookupA s.sessions sid)

/-- Observation: a day's total cost (0 if the bucket does not exist). -/
def dailyCost (s : StatsStore) (d : String) : ℚ :=
  match lookupA s.daily d with
  | some b => b.total_cost
  | none => 0

/-- Observation: a month's total cost (0 if the bucket does not exist). -/
def monthlyCost (s : StatsStore) (m : String) : ℚ :=
  match lookupA s.monthly m with
  | some b => b.total_cost
  | none => 0

/-- Sum of the currently stored per-session absolute costs. -/
def costSum (l : List (String × SessionRow)) : ℚ :=
  (l.map (fun p => p.2.cost)).sum

/-- Ledger well-formedness: the all-time total is the sum of current
per-session absolutes, the session count is the number of stored (distinct)
session ids, and session keys are distinct. -/
def WF (s : StatsStore) : Prop :=
  s.total_cost = costSum s.sessions ∧
  s.session_count = s.sessions.length ∧
  (s.sessions.map Prod.fst).Nodup

theorem lookupA_updateA_self {V : Type} (k : String) (f : Option V → V) :
    ∀ l : List (String × V), lookupA (updateA k f l) k = some (f (lookupA l k))
  | [] => by simp [updateA, lookupA]
  | (k', v) :: rest => by
    by_cases h : k' = k
    · rw [updateA, if_pos h, lookupA, if_pos h, lookupA, if_pos h]
    · rw [updateA, if_neg h, lookupA, if_neg h, lookupA, if_neg h,
        lookupA_updateA_self k f rest]

theorem lookupA_updateA_ne {V : Type} {k k' : String} (hne : k' ≠ k) (f : Option V → V) :
    ∀ l : List (String × V), lookupA (updateA k f l) k' = lookupA l k'
  | [] => by
    simp only [updateA, lookupA]
    rw [if_neg (fun h => hne h.symm)]
  | (k'', v) :: rest => by
    by_cases h : k'' = k
    · rw [updateA, if_pos h, lookupA, lookupA]
      subst h
      rw [if_neg (fun h2 => hne h2.symm), if_neg (fun h2 => hne h2.symm)]
    · rw [updateA, if_neg h, lookupA, lookupA]
      by_cases h2 : k'' = k'
      · rw [if_pos h2, if_pos h2]
      · rw [if_neg h2, if_neg h2, lookupA_updateA_ne hne f rest]

theorem costSum_updateA (k : String) (f : Option SessionRow → SessionRow) :
    ∀ l : List (String × SessionRow),
      costSum (updateA k f l) = costSum l + (f (lookupA l k)).cost - optCost (lookupA l k)
  | [] => by simp [updateA, lookupA, costSum, optCost]
  | (k', v) :: rest => by
    by_cases h : k' = k
    · rw [updateA, if_pos h, lookupA, if_pos h]
      simp only [costSum, List.map_cons, List.sum_cons, optCost]
      ring
    · rw [updateA, if_neg h, lookupA, if_neg h]
      have ih := costSum_updateA k f rest
      simp only [costSum, List.map_cons, List.sum_cons] at ih ⊢
      rw [ih]
      ring

theorem length_updateA {V : Type} (k : String) (f : Option V → V) :
    ∀ l : List (String × V),
      (updateA k f l).length =
        if (lookupA l k).isSome then l.length else l.length + 1
  | [] => by simp [updateA, lookupA]
  | (k', v) :: rest => by
    by_cases h : k' = k
    · rw [updateA, if_pos h, lookupA, if_pos h]
      simp
    · rw [updateA, if_neg h, lookupA, if_neg h]
      simp only [List.length_cons, length_updateA k f rest]
      by_cases hs : (lookupA rest k).isSome
      · rw [if_pos hs, if_pos hs]
      · rw [if_neg hs, if_neg hs]

theorem mem_keys_updateA {V : Type} {x k : String} (f : Option V → V) :
    ∀ {l : List (String × V)},
      x ∈ (updateA k f l).map Prod.fst ↔ x ∈ l.map Prod.fst ∨ x = k := by
  intro l
  induction l with
  | nil => simp [updateA]
  | cons p rest ih =>
    obtain ⟨k', v⟩ := p
    by_cases h : k' = k
    · rw [updateA, if_pos h]
      subst h
      simp only [List.map_cons, List.mem_cons]
      constructor
      · rintro (rfl | hm)
        · exact Or.inr rfl
        · exact Or.inl (Or.inr hm)
      · rintro ((rfl | hm) | rfl)
        · exact Or.inl rfl
        · exact Or.inr hm
        · exact Or.inl rfl
    · rw [updateA, if_neg h]
      simp only [List.map_cons, List.mem_cons, ih]
      tauto

theorem lookupA_isSome_iff {V : Type} {k : String} :
    ∀ {l : List (String × V)}, (lookupA l k).isSome = true ↔ k ∈ l.map Prod.fst := by
  intro l
  induction l with
  | nil => simp [lookupA]
  | cons p rest ih =>
    obtain ⟨k', v⟩ := p
    by_cases h : k' = k
    · subst h
      simp [lookupA]
    · rw [lookupA, if_neg h]
      simp only [List.map_cons, List.mem_cons, ih]
      constructor
      · exact fun hm => Or.inr hm
      · rintro (rfl | hm)
        · exact absurd rfl h
        · exact hm

theorem nodup_keys_updateA {V : Type} {k : String} (f : Option V → V) :
    ∀ {l : List (String × V)}, (l.map Prod.fst).Nodup →
      ((updateA k f l).map Prod.fst).Nodup := by
  intro l
  induction l with
  | nil => intro _; simp [updateA]
  | cons p rest ih =>
    obtain ⟨k', v⟩ := p
    intro hnd
    simp only [List.map_cons, List.nodup_cons] at hnd
    by_cases h : k' = k
    · rw [updateA, if_pos h]
      simp only [List.map_cons, List.nodup_cons]
      exact hnd
    · rw [updateA, if_neg h]
      simp only [List.map_cons, List.nodup_cons]
      refine ⟨fun hm => ?_, ih hnd.2⟩
      rcases (mem_keys_updateA f).mp hm with hm | rfl
      · exact hnd.1 hm
      · exact h rfl

/-- C1: on the spec-modelled stats store, `record` replaces the session's
absolute cost and line counts, moves the daily and monthly bucket totals by
exactly `current − previously stored` (so 10.0 then 6.0 on the same day
leaves the day at 6.0), keeps the all-time total equal to the sum of
current per-session absolute costs (10.0 then 15.0 gives 15.0, not 25.0),
and bumps `session_count` by exactly 1 the first time a session id is seen
and never again — including across calendar days. -/
theorem stats_record_spec :
    WF emptyStats ∧
    (∀ s sid c la lr d m ts tk, WF s → WF (record s sid c la lr d m ts tk)) ∧
    (∀ s sid c la lr d m ts tk, ∃ row,
      lookupA (record s sid c la lr d m ts tk).sessions sid = some row ∧
      row.cost = c ∧ row.lines_added = la ∧ row.lines_removed = lr) ∧
    (∀ s sid c la lr d m ts tk,
      dailyCost (record s sid c la lr d m ts tk) d =
        dailyCost s d + (c - sessionCost s sid) ∧
      monthlyCost (record s sid c la lr d m ts tk) m =
        monthlyCost s m + (c - sessionCost s sid)) ∧
    (∀ s sid c la lr d m ts tk,
      (record s sid c la lr d m ts tk).session_count =
        if (lookupA s.sessions sid).isSome then s.session_count
        else s.session_count + 1) ∧
    (dailyCost (record (record emptyStats "S" 10 0 0 "D" "M" "t1" 0)
        "S" 6 0 0 "D" "M" "t2" 0) "D" = 6 ∧
      (record (record emptyStats "S" 10 0 0 "D" "M" "t1" 0)
        "S" 6 0 0 "D" "M" "t2" 0).total_cost = 6 ∧
      (record (record emptyStats "S" 10 0 0 "D" "M" "t1" 0)
        "S" 6 0 0 "D" "M" "t2" 0).session_count = 1) ∧
    ((record (record emptyStats "S" 10 100 20 "D1" "M" "t1" 0)
        "S" 15 150 30 "D2" "M" "t2" 0).total_cost = 15 ∧
      (record (record emptyStats "S" 10 100 20 "D1" "M" "t1" 0)
        "S" 15 150 30 "D2" "M" "t2" 0).session_count = 1 ∧
      dailyCost (record (record emptyStats "S" 10 100 20 "D1" "M" "t1" 0)
        "S" 15 150 30 "D2" "M" "t2" 0) "D1" = 10 ∧
      dailyCost (record (record emptyStats "S" 10 100 20 "D1" "M" "t1" 0)
        "S" 15 150 30 "D2" "M" "t2" 0) "D2" = 5) := by
  have hwf : ∀ s sid c la lr d m ts tk, WF s → WF (record s sid c la lr d m ts tk) := by
    intro s sid c la lr d m ts tk ⟨h1, h2, h3⟩
    refine ⟨?_, ?_, ?_⟩
    · show s.total_cost + (c - optCost (lookupA s.sessions sid)) = costSum (updateA sid _ _)
      rw [costSum_updateA, h1]
      have hc : ∀ old : Option SessionRow,
          (match old with
            | some r =>
              { r with
                cost := c
                lines_added := la
                lines_removed := lr
                last_updated := ts
                max_tokens_seen := max r.max_tokens_seen tk }
            | none =>
              ({ start_time := ts
                 last_updated := ts
                 cost := c
                 lines_added := la
                 lines_removed := lr
                 max_tokens_seen := tk } : SessionRow)).cost = c := by
        intro old
        cases old <;> rfl
      rw [hc]
      ring
    · show (if (lookupA s.sessions sid).isSome then s.session_count
          else s.session_count + 1) = (updateA sid _ s.sessions).length
      rw [length_updateA, h2]
    · exact nodup_keys_updateA _ h3
  have hdaily : ∀ s sid c la lr d m ts tk,
      dailyCost (record s sid c la lr d m ts tk) d =
        dailyCost s d + (c - sessionCost s sid) := by
    intro s sid c la lr d m ts tk
    rw [dailyCost]
    show (match lookupA (updateA d _ s.daily) d with
      | some b => b.total_cost
      | none => 0) = _
    rw [lookupA_updateA_self]
    cases hold : lookupA s.daily d with
    | none => simp [dailyCost, hold, sessionCost]
    | some b => simp [dailyCost, hold, sessionCost]
  have hmonthly : ∀ s sid c la lr d m ts tk,
      monthlyCost (record s sid c la lr d m ts tk) m =
        monthlyCost s m + (c - sessionCost s sid) := by
    intro s sid c la lr d m ts tk
    rw [monthlyCost]
    show (match lookupA (updateA m _ s.monthly) m with
      | some b => b.total_cost
      | none => 0) = _
    rw [lookupA_updateA_self]
    cases hold : lookupA s.monthly m with
    | none => simp [monthlyCost, hold, sessionCost]
    | some b => simp [monthlyCost, hold, sessionCost]
  have hdaily_ne : ∀ s sid c la lr d d2 m ts tk, d2 ≠ d →
      dailyCost (record s sid c la lr d m ts tk) d2 = dailyCost s d2 := by
    intro s sid c la lr d d2 m ts tk hne
    rw [dailyCost]
    show (match lookupA (updateA d _ s.daily) d2 with
      | some b => b.total_cost
      | none => 0) = _
    rw [lookupA_updateA_ne hne, dailyCost]
  have htotal : ∀ s sid c la lr d m ts tk,
      (record s sid c la lr d m ts tk).total_cost =
        s.total_cost + (c - sessionCost s sid) := fun _ _ _ _ _ _ _ _ _ => rfl
  have hsc : ∀ s sid c la lr d m ts tk,
      sessionCost (record s sid c la lr d m ts tk) sid = c := by
    intro s sid c la lr d m ts tk
    rw [sessionCost]
    show optCost (lookupA (updateA sid _ s.sessions) sid) = c
    rw [lookupA_updateA_self]
    cases lookupA s.sessions sid <;> rfl
  have hscE : sessionCost emptyStats "S" = 0 := rfl
  refine ⟨⟨rfl, rfl, List.nodup_nil⟩, hwf, ?_, fun s sid c la lr d m ts tk =>
      ⟨hdaily s sid c la lr d m ts tk, hmonthly s sid c la lr d m ts tk⟩, ?_, ?_, ?_⟩
  · intro s sid c la lr d m ts tk
    refine ⟨_, lookupA_updateA_self sid _ s.sessions, ?_⟩
    cases lookupA s.sessions sid <;> exact ⟨rfl, rfl, rfl⟩
  · intro s sid c la lr d m ts tk
    rfl
  · refine ⟨?_, ?_, ?_⟩
    · rw [hdaily, hdaily, hsc, hscE]
      rw [show dailyCost emptyStats "D" = 0 from rfl]
      norm_num
    · rw [htotal, htotal, hsc, hscE]
      rw [show emptyStats.total_cost = 0 from rfl]
      norm_num
    · rfl
  · refine ⟨?_, ?_, ?_, ?_⟩
    · rw [htotal, htotal, hsc, hscE]
      rw [show emptyStats.total_cost = 0 from rfl]
      norm_num
    · rfl
    · rw [hdaily_ne _ _ _ _ _ _ _ _ _ _ (by decide), hdaily, hscE]
      rw [show dailyCost emptyStats "D1" = 0 from rfl]
      norm_num
    · rw [hdaily, hsc]
      rw [hdaily_ne _ _ _ _ _ _ _ _ _ _ (by decide)]
      rw [show dailyCost emptyStats "D2" = 0 from rfl]
      norm_num

/-- Witness for C1: recording into the empty (well-formed) ledger preserves
well-formedness, and the first record of a session increments the count. -/
theorem stats_record_spec_witness :
    WF (record emptyStats "S" 10 0 0 "D" "M" "t1" 0) ∧
    (record emptyStats "S" 10 0 0 "D" "M" "t1" 0).session_count = 1 :=
  ⟨stats_record_spec.2.1 emptyStats "S" 10 0 0 "D" "M" "t1" 0 stats_record_spec.1,
   (stats_record_spec.2.2.2.2.1 emptyStats "S" 10 0 0 "D" "M" "t1" 0).trans (by rfl)⟩

end Statusline
